import Mathlib

/-!
Verification of the selection engine of `src/selectors.cc` (Kakoune-style
editor).  The buffer is modelled as a flat list of characters with integer
byte offsets; buffer coordinates are ordered lexicographically, and the
coordinate order agrees with the byte-offset order, so selections over the
flat model carry their endpoints as offsets.  Iterator arithmetic is plain
integer arithmetic; dereferencing an out-of-range iterator (undefined
behavior in C++) yields the null character.
-/

namespace Kakoune

set_option autoImplicit false

/-- Modelled from the spec: byte access into the flat buffer.  Out-of-range
access (iterator misuse, undefined behavior in the C++ buffer) yields a null
character. -/
def byteAt (s : List Char) (i : Int) : Char :=
  if 0 ≤ i then s.getD i.toNat (Char.ofNat 0) else Char.ofNat 0

/-- Modelled from the spec: `is_eol(c)` is true for a newline. -/
def is_eol (c : Char) : Bool := c == '\n'

/-- Modelled from the spec: `is_horizontal_blank(c)` is true for space and tab. -/
def is_horizontal_blank (c : Char) : Bool := c == ' ' || c == '\t'

/-- Modelled from the spec: `is_blank(c)` is a horizontal blank or a newline. -/
def is_blank (c : Char) : Bool := is_horizontal_blank c || is_eol c

/-- `ObjectFlags`: bitmask with independent bits ToBegin, ToEnd, Inner. -/
structure ObjectFlags where
  toBegin : Bool
  toEnd : Bool
  inner : Bool
deriving DecidableEq, Repr

/-- A selection over the flat buffer: inclusive `anchor` and `cursor`
offsets (captures are irrelevant to the verified claims and omitted). -/
structure Selection where
  anchor : Int
  cursor : Int
deriving DecidableEq, Repr

def Selection.min (s : Selection) : Int := if s.anchor ≤ s.cursor then s.anchor else s.cursor

def Selection.max (s : Selection) : Int := if s.anchor ≤ s.cursor then s.cursor else s.anchor

/-- `std::equal(pat.begin(), pat.end(), s + i)`: the pattern occurs at
offset `i`.  (At a negative offset only the empty pattern matches; the C++
comparison would not dereference anything for an empty pattern.) -/
def matchesAt (s : List Char) (i : Int) (pat : List Char) : Bool :=
  if 0 ≤ i then pat.isPrefixOf (s.drop i.toNat) else pat.isEmpty

/-- `std::search(s + pos, s + e, pat)`: first offset `i ≥ pos` with
`i + pat.length ≤ e` at which `pat` occurs; `e` when there is none.
Fuel-indexed loop; the wrapper passes enough fuel for the whole scan. -/
def searchFrom_f (s pat : List Char) (e : Int) : Nat → Int → Int
  | 0, _ => e
  | fuel+1, pos =>
    if (pat.length : Int) ≤ e - pos then
      (if matchesAt s pos pat then pos else searchFrom_f s pat e fuel (pos + 1))
    else e

def searchFrom (s pat : List Char) (pos e : Int) : Int :=
  searchFrom_f s pat e ((e - pos).toNat + 1) pos

/-- The nesting bump of `find_closing`: count the non-overlapping
occurrences of `pat` in `[pos, e)` the way the C++ inner `for` loop does
(`open = search(open, close, opening); ++level; open += opening_len`).
The C++ loop never terminates on an empty pattern; that case is modelled
as 0 and is unreachable from the verified calls. -/
def countOcc_f (s pat : List Char) (e : Int) : Nat → Int → Nat
  | 0, _ => 0
  | fuel+1, pos =>
    if searchFrom s pat pos e = e then 0
    else 1 + countOcc_f s pat e fuel (searchFrom s pat pos e + pat.length)

def countOcc (s pat : List Char) (pos e : Int) : Nat :=
  if pat.isEmpty then 0 else countOcc_f s pat e ((e - pos).toNat + 1) pos

/-- The scan loop of `find_closing`: look for the next occurrence of
`c`; when `nestable`, bump the level by the occurrences of `o` seen
before it; a found closing with level 0 yields the offset of its last
byte, otherwise the level is decremented and the scan continues.  With an
empty closing string the C++ loop stays in place, draining a non-negative
level to 0 and yielding `pos - 1` (it never terminates on a negative
level; that case is modelled as `none`). -/
def find_closing_f (s o c : List Char) (e : Int) (nestable : Bool) : Nat → Int → Int → Option Int
  | 0, _, _ => none
  | fuel+1, pos, level =>
    if pos = e then none
    else if c.isEmpty then (if 0 ≤ level then some (pos - 1) else none)
    else
      if searchFrom s c pos e = e then none
      else
        let close := searchFrom s c pos e
        let lvl := if nestable then level + (countOcc s o pos close : Int) else level
        if lvl = 0 then some (close + c.length - 1)
        else find_closing_f s o c e nestable fuel (close + c.length) (lvl - 1)

/-- `find_closing(pos, end, opening, closing, init_level, nestable)`:
skip a leading occurrence of `opening`, then scan for the balancing
occurrence of `closing`.  The level starts at `init_level` when nestable
and at 0 otherwise. -/
def find_closing (s : List Char) (pos e : Int) (o c : List Char) (init_level : Int) (nestable : Bool) : Option Int :=
  let level : Int := if nestable then init_level else 0
  let pos1 := if (o.length : Int) ≤ e - pos ∧ matchesAt s pos o = true then pos + o.length else pos
  find_closing_f s o c e nestable ((e - pos1).toNat + 1) pos1 level

/-- `find_surrounding(container, pos, opening, closing, flags, init_level)`.
The backward search of the C++ code runs `find_closing` over reversed
iterators and reversed pattern strings; here it runs over the reversed
list, with offset `j` in the reversed list denoting offset
`length - 1 - j` in the original.  `opening != *pos` is the comparison of
a `StringView` with a one-character `StringView` made from the byte at
`pos`. -/
def find_surrounding (s : List Char) (pos : Int) (o c : List Char) (fl : ObjectFlags) (lvl : Int) : Option (Int × Int) :=
  let n : Int := s.length
  let nestable := o ≠ c
  let fstep : Option Int :=
    if fl.toBegin = true ∧ o ≠ [byteAt s pos] then
      (find_closing s.reverse (n - 1 - pos) n c.reverse o.reverse lvl nestable).map (fun r => n - 1 - r)
    else some pos
  match fstep with
  | none => none
  | some first =>
    let lstep : Option Int := if fl.toEnd = true then find_closing s pos n o c lvl nestable else some pos
    match lstep with
    | none => none
    | some last =>
      let first2 := if fl.inner = true ∧ fl.toBegin = true ∧ first ≠ last then first + o.length else first
      let last2 := if fl.inner = true ∧ fl.toEnd = true ∧ first2 ≠ last then last - c.length else last
      some (if fl.toEnd = true then (first2, last2) else (last2, first2))

/-- `select_surrounding(ctx, selection, opening, closing, level, flags)`.
`c == opening` compares the byte at the cursor, implicitly converted to a
one-character `StringView`, with `opening`; `flags == ObjectFlags::ToBegin`
is an exact comparison of the whole bitmask.  When the pair is nestable,
the flags are exactly ToBegin|ToEnd and the found span has the same `min`
and `max` as the input selection, `find_surrounding` is retried with
`level + 1`. -/
def select_surrounding (buf : List Char) (sel : Selection) (o c : List Char) (level : Int) (fl : ObjectFlags) : Option Selection :=
  let nestable := o ≠ c
  let pos := sel.cursor
  if ¬ nestable ∨ fl.inner = true then
    (find_surrounding buf pos o c fl level).map (fun p => ⟨p.1, p.2⟩)
  else
    let ch := byteAt buf pos
    let level := if (fl = ⟨true, false, false⟩ ∧ o = [ch]) ∨ (fl = ⟨false, true, false⟩ ∧ c = [ch]) then level + 1 else level
    match find_surrounding buf pos o c fl level with
    | none => none
    | some (f, l) =>
      let found : Selection := ⟨f, l⟩
      if fl ≠ ⟨true, true, false⟩ ∨ found.min ≠ sel.min ∨ found.max ≠ sel.max then some found
      else (find_surrounding buf pos o c fl (level + 1)).map (fun p => ⟨p.1, p.2⟩)

/-- Modelled from the spec: `skip_while(it, end, pred)` (from
`selectors.hh`, not among the sources) advances the iterator while the
predicate holds and the end is not reached.  The returned boolean of the
C++ helper is not used by any verified selector and is omitted. -/
def skip_while_f (s : List Char) (e : Int) (p : Char → Bool) : Nat → Int → Int
  | 0, i => i
  | fuel+1, i => if i < e ∧ p (byteAt s i) = true then skip_while_f s e p fuel (i + 1) else i

def skip_while (s : List Char) (e : Int) (p : Char → Bool) (i : Int) : Int :=
  skip_while_f s e p (e - i).toNat i

/-- Modelled from the spec: `skip_while_reverse(it, begin, pred)` moves
the iterator backward while the predicate holds, stopping at `begin`. -/
def skip_while_reverse_f (s : List Char) (b : Int) (p : Char → Bool) : Nat → Int → Int
  | 0, i => i
  | fuel+1, i => if b < i ∧ p (byteAt s i) = true then skip_while_reverse_f s b p fuel (i - 1) else i

def skip_while_reverse (s : List Char) (b : Int) (p : Char → Bool) (i : Int) : Int :=
  skip_while_reverse_f s b p (i - b).toNat i

/-- `select_word` over the flat buffer.  The word predicate stands for
`is_word<word_type>(c, extra_word_chars)` in either word regime; the
unused `count` parameter of the C++ signature is dropped. -/
def select_word (s : List Char) (isWordC : Char → Bool) (cursor : Int) (fl : ObjectFlags) : Option Selection :=
  if isWordC (byteAt s cursor) = false then none
  else
    let first := cursor
    let first :=
      if fl.toBegin = true then
        let f := skip_while_reverse s 0 isWordC first
        if isWordC (byteAt s f) = false then f + 1 else f
      else first
    let last := cursor
    let last :=
      if fl.toEnd = true then
        let l := skip_while s s.length isWordC last
        let l := if fl.inner = false then skip_while s s.length is_horizontal_blank l else l
        l - 1
      else last
    some (if fl.toEnd = true then ⟨first, last⟩ else ⟨last, first⟩)

/-- The `is_number` lambda of `select_number` (it captures the flags). -/
def sel_num_pred (fl : ObjectFlags) (ch : Char) : Bool :=
  decide (('0' ≤ ch ∧ ch ≤ '9') ∨ (fl.inner = false ∧ ch = '.'))

/-- `select_number` over the flat buffer (unused `count` dropped). -/
def select_number (s : List Char) (cursor : Int) (fl : ObjectFlags) : Option Selection :=
  let isNum := sel_num_pred fl
  if isNum (byteAt s cursor) = false ∧ byteAt s cursor ≠ '-' then none
  else
    let first := cursor
    let first :=
      if fl.toBegin = true then
        let f := skip_while_reverse s 0 isNum first
        if isNum (byteAt s f) = false ∧ byteAt s f ≠ '-' ∧ f + 1 ≠ (s.length : Int) then f + 1 else f
      else first
    let last := cursor
    let last :=
      if fl.toEnd = true then
        let l := if byteAt s last = '-' then last + 1 else last
        let l := skip_while s s.length isNum l
        if l ≠ 0 then l - 1 else l
      else last
    some (if fl.toEnd = true then ⟨first, last⟩ else ⟨last, first⟩)

/-- The `is_whitespace` lambda of `select_whitespaces` (it captures the
flags). -/
def sel_ws_pred (fl : ObjectFlags) (ch : Char) : Bool :=
  decide (ch = ' ' ∨ ch = '\t' ∨ (fl.inner = false ∧ ch = '\n'))

/-- `select_whitespaces` over the flat buffer (unused `count` dropped). -/
def select_whitespaces (s : List Char) (cursor : Int) (fl : ObjectFlags) : Option Selection :=
  let isWs := sel_ws_pred fl
  if isWs (byteAt s cursor) = false then none
  else
    let first := cursor
    let first :=
      if fl.toBegin = true then
        (if isWs (byteAt s first) = true then
          let f := skip_while_reverse s 0 isWs first
          if isWs (byteAt s f) = false then f + 1 else f
        else first)
      else first
    let last := cursor
    let last :=
      if fl.toEnd = true then
        (if isWs (byteAt s last) = true then skip_while s s.length isWs last - 1 else last)
      else last
    some (if fl.toEnd = true then ⟨first, last⟩ else ⟨last, first⟩)

def is_end_of_sentence (ch : Char) : Bool := ch == '.' || ch == ';' || ch == '!' || ch == '?'

/-- The backward scan of `select_sentence` (the loop mutating `first`,
`saw_non_blank` and possibly `last`); returns the final (first, last). -/
def sentence_back_f (s : List Char) (toEnd : Bool) : Nat → Int → Int → Bool → Int × Int
  | 0, first, last, _ => (first, last)
  | fuel+1, first, last, saw =>
    if first ≤ 0 then (first, last)
    else
      let cur := byteAt s first
      let prev := byteAt s (first - 1)
      let saw := if is_horizontal_blank cur = false then true else saw
      if is_eol prev = true ∧ is_eol cur = true then (first + 1, last)
      else if is_end_of_sentence prev = true ∧ saw = true then (first, last)
      else if is_end_of_sentence prev = true ∧ toEnd = true then
        sentence_back_f s toEnd fuel (first - 1) (first - 1) saw
      else sentence_back_f s toEnd fuel (first - 1) last saw

/-- The forward scan of `select_sentence`. -/
def sentence_fwd_f (s : List Char) (e : Int) : Nat → Int → Int
  | 0, last => last
  | fuel+1, last =>
    if e ≤ last then last
    else
      if is_end_of_sentence (byteAt s last) = true ∨
          (is_eol (byteAt s last) = true ∧ (last + 1 = e ∨ is_eol (byteAt s (last + 1)) = true)) then last
      else sentence_fwd_f s e fuel (last + 1)

/-- `select_sentence` over the flat buffer (unused `count` dropped). -/
def select_sentence (s : List Char) (cursor : Int) (fl : ObjectFlags) : Option Selection :=
  let first := cursor
  let first :=
    if fl.toEnd = false then
      let pnb := skip_while_reverse s 0 (fun ch => is_horizontal_blank ch || is_eol ch) (first - 1)
      if is_end_of_sentence (byteAt s pnb) = true then pnb else first
    else first
  let last := first
  let fpair :=
    if fl.toBegin = true then
      let r := sentence_back_f s fl.toEnd first.toNat first last false
      (skip_while s s.length is_horizontal_blank r.1, r.2)
    else (first, last)
  let first := fpair.1
  let last := fpair.2
  let last :=
    if fl.toEnd = true then
      let l := sentence_fwd_f s s.length (s.length - last).toNat last
      if fl.inner = false ∧ l ≠ (s.length : Int) then
        skip_while s s.length is_horizontal_blank (l + 1) - 1
      else l
    else last
  some (if fl.toEnd = true then ⟨first, last⟩ else ⟨last, first⟩)

/-- The backward scan of `select_paragraph` (after EOLs were skipped). -/
def para_back_f (s : List Char) : Nat → Int → Int
  | 0, first => first
  | fuel+1, first =>
    if first ≤ 0 then first
    else if is_eol (byteAt s (first - 1)) = true ∧ is_eol (byteAt s first) = true then first + 1
    else para_back_f s fuel (first - 1)

/-- The forward scan of `select_paragraph`. -/
def para_fwd_f (s : List Char) (inner : Bool) (e : Int) : Nat → Int → Int
  | 0, last => last
  | fuel+1, last =>
    if e ≤ last then last
    else if last ≠ 0 ∧ is_eol (byteAt s last) = true ∧ is_eol (byteAt s (last - 1)) = true then
      (if inner = false then skip_while s e is_eol last else last)
    else para_fwd_f s inner e fuel (last + 1)

/-- `select_paragraph` over the flat buffer (unused `count` dropped).
`first.coord() > BufferCoord{0,1}` is the offset comparison `1 < first`. -/
def select_paragraph (s : List Char) (cursor : Int) (fl : ObjectFlags) : Option Selection :=
  let first := cursor
  let first :=
    if fl.toEnd = false ∧ 1 < first ∧ byteAt s (first - 1) = '\n' ∧ byteAt s (first - 2) = '\n' then first - 1
    else if fl.toEnd = true ∧ first ≠ 0 ∧ first + 1 ≠ (s.length : Int) ∧
        byteAt s (first - 1) = '\n' ∧ byteAt s first = '\n' then first + 1
    else first
  let last := first
  let fpair :=
    if fl.toBegin = true ∧ first ≠ 0 then
      let f := skip_while_reverse s 0 is_eol first
      let last := if fl.toEnd = true then f else last
      (para_back_f s f.toNat f, last)
    else (first, last)
  let first := fpair.1
  let last := fpair.2
  let last :=
    if fl.toEnd = true then
      let l := if last ≠ (s.length : Int) ∧ is_eol (byteAt s last) = true then last + 1 else last
      para_fwd_f s fl.inner s.length (s.length - l).toNat l - 1
    else last
  some (if fl.toEnd = true then ⟨first, last⟩ else ⟨last, first⟩)

/-- The character classes of `select_argument`. -/
inductive ArgClass
  | cnone
  | copening
  | cclosing
  | cdelim
deriving DecidableEq

def classify (ch : Char) : ArgClass :=
  if ch = '(' ∨ ch = '[' ∨ ch = '{' then .copening
  else if ch = ')' ∨ ch = ']' ∨ ch = '}' then .cclosing
  else if ch = ',' ∨ ch = ';' then .cdelim
  else .cnone

/-- The backward scan of `select_argument`; `lev--` in the C++ condition
decrements on every opener reached, branching on the value before the
decrement.  Returns (first_arg, begin). -/
def arg_back_f (s : List Char) : Nat → Int → Int → Bool × Int
  | 0, b, _ => (false, b)
  | fuel+1, b, lev =>
    if b ≤ 0 then (false, b)
    else match classify (byteAt s b) with
      | .cclosing => arg_back_f s fuel (b - 1) (lev + 1)
      | .copening => if lev = 0 then (true, b + 1) else arg_back_f s fuel (b - 1) (lev - 1)
      | .cdelim => if lev = 0 then (false, b + 1) else arg_back_f s fuel (b - 1) lev
      | .cnone => arg_back_f s fuel (b - 1) lev

/-- `while (end + 1 != buffer.end() and is_blank(*(end+1))) ++end;` -/
def blank_ext_f (s : List Char) : Nat → Int → Int
  | 0, e => e
  | fuel+1, e => if e + 1 ≠ (s.length : Int) ∧ is_blank (byteAt s (e + 1)) = true then blank_ext_f s fuel (e + 1) else e

/-- The forward scan of `select_argument`; a closer at the starting
position short-circuits before the `lev--` and falls through without
changing the level.  Returns (last_arg, end). -/
def arg_fwd_f (s : List Char) (inner : Bool) (first_arg : Bool) (pos : Int) : Nat → Int → Int → Bool × Int
  | 0, e, _ => (false, e)
  | fuel+1, e, lev =>
    if (s.length : Int) ≤ e then (false, e)
    else match classify (byteAt s e) with
      | .copening => arg_fwd_f s inner first_arg pos fuel (e + 1) (lev + 1)
      | .cclosing =>
          if e ≠ pos then
            (if lev = 0 then (true, e - 1) else arg_fwd_f s inner first_arg pos fuel (e + 1) (lev - 1))
          else arg_fwd_f s inner first_arg pos fuel (e + 1) lev
      | .cdelim =>
          if lev = 0 then (false, if first_arg = true ∧ inner = false then blank_ext_f s (s.length - e).toNat e else e)
          else arg_fwd_f s inner first_arg pos fuel (e + 1) lev
      | .cnone => arg_fwd_f s inner first_arg pos fuel (e + 1) lev

/-- `select_argument` over the flat buffer.  The `Closing` case of the
initial adjustment is commented out in the source and therefore absent
here. -/
def select_argument (s : List Char) (cursor : Int) (level : Int) (fl : ObjectFlags) : Option Selection :=
  let pos :=
    match classify (byteAt s cursor) with
    | .copening => if cursor ≠ 0 then cursor - 1 else cursor
    | .cdelim => if cursor ≠ 0 then cursor - 1 else cursor
    | _ => cursor
  let bres := arg_back_f s pos.toNat pos level
  let first_arg := bres.1
  let beginv := bres.2
  let fres := arg_fwd_f s fl.inner first_arg pos (s.length - pos).toNat pos level
  let last_arg := fres.1
  let endv := fres.2
  let pair :=
    if fl.inner = true then
      let e1 := if last_arg = false then endv - 1 else endv
      let b1 := skip_while s e1 is_blank beginv
      (b1, skip_while_reverse s b1 is_blank e1)
    else if first_arg = false ∧ last_arg = true then (beginv - 1, endv)
    else (beginv, endv)
  let beginv := pair.1
  let endv := pair.2
  let endv := if endv = (s.length : Int) then endv - 1 else endv
  if fl.toBegin = true ∧ fl.toEnd = false then some ⟨pos, beginv⟩
  else some ⟨if fl.toBegin = true then beginv else pos, endv⟩

/-- Modelled from the spec: the buffer as its list of lines (the
line-indexed view used by the line-oriented selectors); every line of a
buffer ends with a newline character. -/
structure LBuf where
  lines : List (List Char)
deriving DecidableEq

def lineAt (b : LBuf) (i : Int) : List Char :=
  if 0 ≤ i then b.lines.getD i.toNat [] else []

/-- `BufferCoord`: line index and byte column, ordered lexicographically. -/
structure BufferCoord where
  line : Int
  column : Int
deriving DecidableEq, Repr

def coordLe (a b : BufferCoord) : Prop :=
  a.line < b.line ∨ (a.line = b.line ∧ a.column ≤ b.column)

instance (a b : BufferCoord) : Decidable (coordLe a b) := by
  unfold coordLe
  infer_instance

/-- A selection carrying full coordinates (for the line-oriented
selectors). -/
structure CoordSelection where
  anchor : BufferCoord
  cursor : BufferCoord
deriving DecidableEq, Repr

def CoordSelection.min (s : CoordSelection) : BufferCoord :=
  if coordLe s.anchor s.cursor then s.anchor else s.cursor

def CoordSelection.max (s : CoordSelection) : BufferCoord :=
  if coordLe s.anchor s.cursor then s.cursor else s.anchor

/-- `select_lines`: expand to whole-line coverage; the reference picked by
`anchor <= cursor` is mutated in place (the cursor target-column field is
irrelevant to the verified claims and omitted, so `target_eol` is the
identity on this model). -/
def select_lines (b : LBuf) (sel : CoordSelection) : Option CoordSelection :=
  if coordLe sel.anchor sel.cursor then
    some ⟨⟨sel.anchor.line, 0⟩, ⟨sel.cursor.line, (lineAt b sel.cursor.line).length - 1⟩⟩
  else
    some ⟨⟨sel.anchor.line, (lineAt b sel.anchor.line).length - 1⟩, ⟨sel.cursor.line, 0⟩⟩

/-- `trim_partial_lines`: push a partial start to the next line start,
pull a partial end to the previous line end, fail on an empty result. -/
def trim_partial_lines (b : LBuf) (sel : CoordSelection) : Option CoordSelection :=
  let fwd := coordLe sel.anchor sel.cursor
  let s0 := if fwd then sel.anchor else sel.cursor
  let e0 := if fwd then sel.cursor else sel.anchor
  let s1 := if s0.column ≠ 0 then (⟨s0.line + 1, 0⟩ : BufferCoord) else s0
  let e1opt : Option BufferCoord :=
    if e0.column ≠ (lineAt b e0.line).length - 1 then
      (if e0.line = 0 then none
       else some ⟨e0.line - 1, (lineAt b (e0.line - 1)).length - 1⟩)
    else some e0
  match e1opt with
  | none => none
  | some e1 =>
    if ¬ coordLe s1 e1 then none
    else some (if fwd then ⟨s1, e1⟩ else ⟨e1, s1⟩)

/-- `get_indent`: visual indent of a line under a tab stop (C++ `int`
division truncates toward zero; both operands are non-negative here). -/
def get_indent_go (tabstop : Int) : List Char → Int → Int
  | [], indent => indent
  | ch :: rest, indent =>
    if ch = ' ' then get_indent_go tabstop rest (indent + 1)
    else if ch = '\t' then get_indent_go tabstop rest ((Int.tdiv indent tabstop + 1) * tabstop)
    else indent

def get_indent (str : List Char) (tabstop : Int) : Int := get_indent_go tabstop str 0

def is_only_whitespaces (str : List Char) : Bool :=
  str.all (fun ch => ch == ' ' || ch == '\t' || ch == '\n')

/-- Upward extension of `select_indent`. -/
def indent_up_f (b : LBuf) (tabstop indent : Int) : Nat → Int → Int
  | 0, bl => bl
  | fuel+1, bl =>
    if bl < 0 then bl
    else if lineAt b bl = ['\n'] ∨ indent ≤ get_indent (lineAt b bl) tabstop then
      indent_up_f b tabstop indent fuel (bl - 1)
    else bl

/-- Downward extension of `select_indent`. -/
def indent_down_f (b : LBuf) (tabstop indent e : Int) : Nat → Int → Int
  | 0, el => el
  | fuel+1, el =>
    if e ≤ el then el
    else if lineAt b el = ['\n'] ∨ indent ≤ get_indent (lineAt b el) tabstop then
      indent_down_f b tabstop indent e fuel (el + 1)
    else el

/-- Inner-mode trimming of leading whitespace-only lines. -/
def trim_top_f (b : LBuf) (endl : Int) : Nat → Int → Int
  | 0, bl => bl
  | fuel+1, bl =>
    if bl < endl ∧ is_only_whitespaces (lineAt b bl) = true then trim_top_f b endl fuel (bl + 1) else bl

/-- Inner-mode trimming of trailing whitespace-only lines. -/
def trim_bot_f (b : LBuf) (bl : Int) : Nat → Int → Int
  | 0, el => el
  | fuel+1, el =>
    if bl < el ∧ is_only_whitespaces (lineAt b el) = true then trim_bot_f b bl fuel (el - 1) else el

/-- `select_indent` over the line-indexed buffer (unused `count`
dropped). -/
def select_indent (b : LBuf) (tabstop : Int) (pos : BufferCoord) (fl : ObjectFlags) : Option CoordSelection :=
  let line := pos.line
  let indent := get_indent (lineAt b line) tabstop
  let begin_line := if fl.toBegin = true then indent_up_f b tabstop indent (line - 1 + 1).toNat (line - 1) else line - 1
  let begin_line := begin_line + 1
  let lcount : Int := b.lines.length
  let end_line := if fl.toEnd = true then indent_down_f b tabstop indent lcount (lcount - (line + 1)).toNat (line + 1) else line + 1
  let end_line := end_line - 1
  let pair :=
    if fl.inner = true then
      let bl := trim_top_f b end_line (end_line - begin_line).toNat begin_line
      (bl, trim_bot_f b bl (end_line - bl).toNat end_line)
    else (begin_line, end_line)
  let begin_line := pair.1
  let end_line := pair.2
  let first := if fl.toBegin = true then (⟨begin_line, 0⟩ : BufferCoord) else pos
  let last := if fl.toEnd = true then (⟨end_line, (lineAt b end_line).length - 1⟩ : BufferCoord) else pos
  some (if fl.toEnd = true then (⟨first, last⟩ : CoordSelection) else ⟨last, first⟩)

/-- The matching pair characters of `select_matching`, openers at even
indices. -/
def matching_pairs : List Char := ['(', ')', '{', '}', '[', ']', '<', '>']

/-- The first loop of `select_matching`: scan forward from the cursor
while not on an end-of-line character, looking for a pair character.
The scan relies on the buffer's trailing newline; running past the end
would dereference the end iterator and is modelled as failure. -/
def match_scan_f (s : List Char) : Nat → Int → Option Int
  | 0, _ => none
  | fuel+1, i =>
    if is_eol (byteAt s i) = true then none
    else if byteAt s i ∈ matching_pairs then some i
    else match_scan_f s fuel (i + 1)

def match_scan (s : List Char) (i : Int) : Option Int :=
  match_scan_f s ((s.length : Int) - i).toNat i

/-- The forward balancing loop of `select_matching` (first pair character
is an opener); `--level == 0` tests the decremented level. -/
def match_fwd_f (s : List Char) (opening closing : Char) : Nat → Int → Int → Option Int
  | 0, _, _ => none
  | fuel+1, i, level =>
    if byteAt s i = opening then match_fwd_f s opening closing fuel (i + 1) (level + 1)
    else if byteAt s i = closing then
      (if level - 1 = 0 then some i else match_fwd_f s opening closing fuel (i + 1) (level - 1))
    else match_fwd_f s opening closing fuel (i + 1) level

/-- The backward balancing loop of `select_matching` (first pair
character is a closer); the loop tests `it == begin` after handling the
character. -/
def match_bwd_f (s : List Char) (opening closing : Char) : Nat → Int → Int → Option Int
  | 0, _, _ => none
  | fuel+1, i, level =>
    if byteAt s i = closing then
      (if i ≤ 0 then none else match_bwd_f s opening closing fuel (i - 1) (level + 1))
    else if byteAt s i = opening then
      (if level - 1 = 0 then some i
       else if i ≤ 0 then none else match_bwd_f s opening closing fuel (i - 1) (level - 1))
    else if i ≤ 0 then none else match_bwd_f s opening closing fuel (i - 1) level

/-- `select_matching`: find a pair character on the cursor's line, then
balance forward (opener, even index) or backward (closer, odd index). -/
def select_matching (s : List Char) (cursor : Int) : Option Selection :=
  match match_scan s cursor with
  | none => none
  | some p =>
    let idx := matching_pairs.indexOf (byteAt s p)
    if idx % 2 = 0 then
      (match_fwd_f s (matching_pairs.getD idx (Char.ofNat 0)) (matching_pairs.getD (idx + 1) (Char.ofNat 0))
        ((s.length : Int) - p).toNat p 0).map (fun q => ⟨p, q⟩)
    else
      (match_bwd_f s (matching_pairs.getD (idx - 1) (Char.ofNat 0)) (matching_pairs.getD idx (Char.ofNat 0))
        (p.toNat + 1) p 0).map (fun q => ⟨p, q⟩)

/-- Modelled from the spec: the remainder of the cursor's line — the
buffer characters from the cursor up to, not including, the next
end-of-line character. -/
def lineRemainder (s : List Char) (cursor : Int) : List Char :=
  (s.drop cursor.toNat).takeWhile (fun ch => !(is_eol ch))

/-- Modelled from the spec: the position of the first matching-pair
character on the cursor's line, absent when no such character occurs
before the end of the line. -/
def firstPairOffset (s : List Char) (cursor : Int) : Option Int :=
  ((lineRemainder s cursor).findIdx? (fun ch => decide (ch ∈ matching_pairs))).map
    (fun k => cursor + (k : Int))

/-- Modelled from the spec: `utf8::next(it, end)` — one step forward,
saturating at the buffer end (one codepoint per list element). -/
def utf8_next (s : List Char) (p : Int) : Int :=
  if p < (s.length : Int) then p + 1 else p

/-- Modelled from the spec: `utf8::previous(it, begin)` — one step back,
saturating at `begin`. -/
def utf8_prev (b : Int) (p : Int) : Int := if b < p then p - 1 else p

/-- Modelled from the spec: the regex collaborator, abstracted as the
pattern text together with a forward and a backward search function over
a half-open offset range; a returned pair holds the begin and end
offsets of the found match.  The anchor flags (`match_flags`) and the
backward `NotInitialNull` flag are functions of the searched range and
are absorbed into the search functions. -/
structure RegexM where
  str : String
  searchF : Int → Int → Option (Int × Int)
  searchB : Int → Int → Option (Int × Int)

def noMatchesMsg (r : RegexM) : String :=
  "'" ++ r.str ++ "': no matches found"

/-- `find_next`: forward search from `pos`; on failure set the wrapped
flag and search again from the buffer begin. -/
def find_next (buf : List Char) (r : RegexM) (pos : Int) : Bool × Option (Int × Int) :=
  if pos ≠ (buf.length : Int) then
    match r.searchF pos buf.length with
    | some m => (false, some m)
    | none => (true, r.searchF 0 buf.length)
  else (true, r.searchF 0 buf.length)

/-- `find_prev`: backward search before `pos`; on failure set the wrapped
flag and search the whole buffer backward. -/
def find_prev (buf : List Char) (r : RegexM) (pos : Int) : Bool × Option (Int × Int) :=
  if pos ≠ 0 then
    match r.searchB 0 pos with
    | some m => (false, some m)
    | none => (true, r.searchB 0 buf.length)
  else (true, r.searchB 0 buf.length)

/-- `find_next_match<Forward>` (captures omitted): the search starts just
past the selection's max; throws when nothing is found or the match
begins at the buffer end sentinel. -/
def find_next_match_fwd (buf : List Char) (sel : Selection) (r : RegexM) : Except String (Selection × Bool) :=
  let res := find_next buf r (utf8_next buf (Selection.max sel))
  match res.2 with
  | none => .error (noMatchesMsg r)
  | some (mb, me) =>
    if mb = (buf.length : Int) then .error (noMatchesMsg r)
    else .ok (⟨mb, if mb = me then me else utf8_prev mb me⟩, res.1)

/-- `find_next_match<Backward>`: the search starts at the selection's
min; the endpoints of the span are swapped. -/
def find_next_match_bwd (buf : List Char) (sel : Selection) (r : RegexM) : Except String (Selection × Bool) :=
  let res := find_prev buf r (Selection.min sel)
  match res.2 with
  | none => .error (noMatchesMsg r)
  | some (mb, me) =>
    if mb = (buf.length : Int) then .error (noMatchesMsg r)
    else .ok (⟨if mb = me then me else utf8_prev mb me, mb⟩, res.1)

/-- Modelled from the spec: `keep_direction` (from `selection.hh`, not
among the sources) — swap the endpoints of the result when its direction
differs from the reference selection's. -/
def keep_direction (res ref : Selection) : Selection :=
  if decide (res.cursor < res.anchor) ≠ decide (ref.cursor < ref.anchor) then
    ⟨res.cursor, res.anchor⟩
  else res

/-- Modelled from the spec: the regex collaborator of the list-level
operations — the mark count, and the match enumeration over a half-open
offset range (`RegexIterator`); each match is the list of its
capture-group spans, index 0 being the whole match. -/
structure RegexL where
  markCount : Nat
  matchesIn : Int → Int → List (List (Int × Int))

/-- The selection vector `select_all_matches` builds before replacing
the list: for every selection, every match in `[min, max+1)`, the
`capture`-th group, skipping groups that start at the range sentinel. -/
def select_all_matches_core (buf : List Char) (sels : List Selection) (r : RegexL) (capture : Int) : List Selection :=
  sels.flatMap (fun sel =>
    let selEnd := utf8_next buf (Selection.max sel)
    (r.matchesIn (Selection.min sel) selEnd).filterMap (fun m =>
      let cap := m.getD capture.toNat (0, 0)
      if cap.1 = selEnd then none
      else some (keep_direction ⟨cap.1, if cap.1 = cap.2 then cap.2 else utf8_prev cap.1 cap.2⟩ sel)))

/-- `select_all_matches` as a transformer of the selection list, with
its two throwing paths; both precede the final assignment. -/
def select_all_matches_run (buf : List Char) (sels : List Selection) (r : RegexL) (capture : Int) :
    Except String Unit × List Selection :=
  if capture < 0 ∨ (r.markCount : Int) < capture then (.error "invalid capture number", sels)
  else
    let result := select_all_matches_core buf sels r capture
    if result = [] then (.error "nothing selected", sels)
    else (.ok (), result)

/-- One input selection's contribution to `split_selections`: a fold
over the matches carrying the gap-begin iterator, emitting the gaps
between matches and finally the tail gap up to the selection max. -/
def split_core_sel (buf : List Char) (r : RegexL) (capture : Int) (sel : Selection) : List Selection :=
  let selEnd := utf8_next buf (Selection.max sel)
  let st := (r.matchesIn (Selection.min sel) selEnd).foldl
    (fun (st : Int × List Selection) m =>
      let cap := m.getD capture.toNat (0, 0)
      if cap.1 = (buf.length : Int) then st
      else
        let acc := if cap.1 ≠ 0 then
            st.2 ++ [keep_direction ⟨st.1, if st.1 = cap.1 then cap.1 else utf8_prev st.1 cap.1⟩ sel]
          else st.2
        (cap.2, acc))
    (Selection.min sel, [])
  if st.1 ≤ Selection.max sel then st.2 ++ [keep_direction ⟨st.1, Selection.max sel⟩ sel] else st.2

def split_selections_core (buf : List Char) (sels : List Selection) (r : RegexL) (capture : Int) : List Selection :=
  sels.flatMap (split_core_sel buf r capture)

/-- `split_selections` as a transformer of the selection list, with its
two throwing paths; both precede the final assignment. -/
def split_selections_run (buf : List Char) (sels : List Selection) (r : RegexL) (capture : Int) :
    Except String Unit × List Selection :=
  if capture < 0 ∨ (r.markCount : Int) < capture then (.error "invalid capture number", sels)
  else
    let result := split_selections_core buf sels r capture
    if result = [] then (.error "nothing selected", sels)
    else (.ok (), result)

/-- The literal text of the inclusive span `[a, b]` of the buffer, as the
unit test's `StringView{min, max+1}` reads it. -/
def extract (s : List Char) (a b : Int) : List Char :=
  (s.drop a.toNat).take (b - a + 1).toNat

/-- Direction requirement of the spec's testable property 4, for a
selection over the flat buffer: a ToEnd selector yields `anchor ≤ cursor`,
a ToBegin (and not ToEnd) selector yields `cursor ≤ anchor`. -/
def dirOk (fl : ObjectFlags) (sel : Selection) : Prop :=
  (fl.toEnd = true → sel.anchor ≤ sel.cursor)
  ∧ (fl.toBegin = true → fl.toEnd = false → sel.cursor ≤ sel.anchor)

/-- Direction requirement for a coordinate selection. -/
def cdirOk (fl : ObjectFlags) (sel : CoordSelection) : Prop :=
  (fl.toEnd = true → coordLe sel.anchor sel.cursor)
  ∧ (fl.toBegin = true → fl.toEnd = false → coordLe sel.cursor sel.anchor)

/-- C1: each concrete scenario of the spec's `find_surrounding` table holds:
on "[salut { toi[] }]" at offset 10 with "{"/"}", ToBegin|ToEnd, level 0 the
span is "{ toi[] }"; the same string at 10 with "["/"]" ToBegin|ToEnd|Inner
gives "salut { toi[] }"; at 0 with "["/"]" ToBegin|ToEnd the whole string;
at 12 with "["/"]" ToBegin|ToEnd|Inner the degenerate "]"; "[]" at 1 gives
"[]"; "[*][] hehe" at 6 with "["/"]" ToBegin is absent; and
"begin tchou begin tchaa end end" at 6 with "begin"/"end" ToBegin|ToEnd is
the whole string. -/
theorem find_surrounding_scenarios :
    (find_surrounding "[salut { toi[] }]".toList 10 "\x7b".toList "\x7d".toList ⟨true, true, false⟩ 0 = some (7, 15)
      ∧ extract "[salut { toi[] }]".toList 7 15 = "{ toi[] }".toList)
  ∧ (find_surrounding "[salut { toi[] }]".toList 10 "[".toList "]".toList ⟨true, true, true⟩ 0 = some (1, 15)
      ∧ extract "[salut { toi[] }]".toList 1 15 = "salut { toi[] }".toList)
  ∧ (find_surrounding "[salut { toi[] }]".toList 0 "[".toList "]".toList ⟨true, true, false⟩ 0 = some (0, 16)
      ∧ extract "[salut { toi[] }]".toList 0 16 = "[salut { toi[] }]".toList)
  ∧ (find_surrounding "[salut { toi[] }]".toList 12 "[".toList "]".toList ⟨true, true, true⟩ 0 = some (13, 13)
      ∧ extract "[salut { toi[] }]".toList 13 13 = "]".toList)
  ∧ (find_surrounding "[]".toList 1 "[".toList "]".toList ⟨true, true, false⟩ 0 = some (0, 1)
      ∧ extract "[]".toList 0 1 = "[]".toList)
  ∧ (find_surrounding "[*][] hehe".toList 6 "[".toList "]".toList ⟨true, false, false⟩ 0 = none)
  ∧ (find_surrounding "begin tchou begin tchaa end end".toList 6 "begin".toList "end".toList ⟨true, true, false⟩ 0 = some (0, 30)
      ∧ extract "begin tchou begin tchaa end end".toList 0 30 = "begin tchou begin tchaa end end".toList) := by
  decide

/-- `find_closing` with `nestable = false` replaces the initial level by 0,
so the result does not depend on `init_level`. -/
theorem find_closing_not_nestable_indep (s : List Char) (pos e : Int) (o c : List Char) (l1 l2 : Int) :
    find_closing s pos e o c l1 false = find_closing s pos e o c l2 false := by
  simp [find_closing]

/-- Variant usable under an arbitrary boolean known to be false. -/
theorem find_closing_nestable_eq (s : List Char) (pos e : Int) (o c : List Char) (l1 l2 : Int) (b : Bool)
    (hb : b = false) : find_closing s pos e o c l1 b = find_closing s pos e o c l2 b := by
  subst hb
  exact find_closing_not_nestable_indep s pos e o c l1 l2

/-- Both `find_closing` calls of `find_surrounding` receive
`nestable = (opening != closing)`, so with `opening = closing` the level
argument is irrelevant. -/
theorem find_surrounding_level_indep (s : List Char) (pos : Int) (o : List Char) (fl : ObjectFlags) (l1 l2 : Int) :
    find_surrounding s pos o o fl l1 = find_surrounding s pos o o fl l2 := by
  simp only [find_surrounding]
  rw [find_closing_nestable_eq s.reverse _ _ _ _ l1 l2 _ (by simp),
      find_closing_nestable_eq s pos _ _ _ l1 l2 _ (by simp)]

/-- C10: when opening equals closing, `find_closing` ignores `init_level`
and behaves as if the level were 0; consequently for every non-nestable
pair the result of `select_surrounding` does not depend on the level
parameter. -/
theorem non_nestable_level_irrelevant :
    (∀ (s : List Char) (pos e : Int) (o : List Char) (l : Int),
        find_closing s pos e o o l false = find_closing s pos e o o 0 false)
  ∧ (∀ (buf : List Char) (sel : Selection) (o : List Char) (l1 l2 : Int) (fl : ObjectFlags),
        select_surrounding buf sel o o l1 fl = select_surrounding buf sel o o l2 fl) := by
  constructor
  · intro s pos e o l
    exact find_closing_not_nestable_indep s pos e o o l 0
  · intro buf sel o l1 l2 fl
    simp only [select_surrounding, ne_eq, not_true_eq_false, false_or, not_false_eq_true, true_or,
      if_true]
    rw [find_surrounding_level_indep buf sel.cursor o fl l1 l2]

/-- C2: for a nestable pair with flags exactly ToBegin|ToEnd, when the
span found by `find_surrounding` has the same `min` and `max` as the input
selection, `select_surrounding` retries `find_surrounding` with
`level + 1` and returns its result (absent when there is no enclosing
pair); and with flags exactly ToBegin (resp. ToEnd) and the byte at the
cursor equal to the opener (resp. closer), the level passed to
`find_surrounding` is pre-incremented by one. -/
theorem select_surrounding_expansion (buf : List Char) (sel : Selection) (o c : List Char) (lvl : Int)
    (hne : o ≠ c) :
    (∀ f l, find_surrounding buf sel.cursor o c ⟨true, true, false⟩ lvl = some (f, l) →
      Selection.min ⟨f, l⟩ = sel.min → Selection.max ⟨f, l⟩ = sel.max →
      select_surrounding buf sel o c lvl ⟨true, true, false⟩ =
        (find_surrounding buf sel.cursor o c ⟨true, true, false⟩ (lvl + 1)).map (fun p => ⟨p.1, p.2⟩))
  ∧ (o = [byteAt buf sel.cursor] →
      select_surrounding buf sel o c lvl ⟨true, false, false⟩ =
        (find_surrounding buf sel.cursor o c ⟨true, false, false⟩ (lvl + 1)).map (fun p => ⟨p.1, p.2⟩))
  ∧ (c = [byteAt buf sel.cursor] →
      select_surrounding buf sel o c lvl ⟨false, true, false⟩ =
        (find_surrounding buf sel.cursor o c ⟨false, true, false⟩ (lvl + 1)).map (fun p => ⟨p.1, p.2⟩)) := by
  refine ⟨?_, ?_, ?_⟩
  · intro f l hfs hmin hmax
    simp only [select_surrounding]
    rw [if_neg (by simp [hne])]
    rw [if_neg (by simp)]
    rw [hfs]
    simp only []
    rw [if_neg (by simp [hmin, hmax])]
  · intro ho
    simp only [select_surrounding]
    rw [if_neg (by simp [hne])]
    rw [if_pos (Or.inl ⟨trivial, ho⟩)]
    cases hfs : find_surrounding buf sel.cursor o c ⟨true, false, false⟩ (lvl + 1) with
    | none => simp
    | some p =>
      obtain ⟨f, l⟩ := p
      simp
  · intro hc
    simp only [select_surrounding]
    rw [if_neg (by simp [hne])]
    rw [if_pos (Or.inr ⟨trivial, hc⟩)]
    cases hfs : find_surrounding buf sel.cursor o c ⟨false, true, false⟩ (lvl + 1) with
    | none => simp
    | some p =>
      obtain ⟨f, l⟩ := p
      simp

/-- Witness for C2: on the buffer "((a))" with the selection spanning the
inner parentheses (anchor 3, cursor 1), ToBegin|ToEnd at level 0 finds
exactly the current span (1, 3), so the retry with level 1 is returned. -/
theorem select_surrounding_expansion_witness :
    select_surrounding "((a))".toList ⟨3, 1⟩ "(".toList ")".toList 0 ⟨true, true, false⟩ =
      (find_surrounding "((a))".toList 1 "(".toList ")".toList ⟨true, true, false⟩ 1).map (fun p => ⟨p.1, p.2⟩) := by
  exact (select_surrounding_expansion "((a))".toList ⟨3, 1⟩ "(".toList ")".toList 0 (by decide)).1
    1 3 (by decide) (by decide) (by decide)

theorem skip_while_f_ge (s : List Char) (e : Int) (p : Char → Bool) (fuel : Nat) :
    ∀ i : Int, i ≤ skip_while_f s e p fuel i := by
  induction fuel with
  | zero => intro i; simp [skip_while_f]
  | succ n ih =>
    intro i
    simp only [skip_while_f]
    split
    · exact le_trans (by omega) (ih (i + 1))
    · exact le_refl i

theorem skip_while_ge (s : List Char) (e : Int) (p : Char → Bool) (i : Int) :
    i ≤ skip_while s e p i :=
  skip_while_f_ge s e p _ i

theorem skip_while_f_le (s : List Char) (e : Int) (p : Char → Bool) (fuel : Nat) :
    ∀ i : Int, i ≤ e → skip_while_f s e p fuel i ≤ e := by
  induction fuel with
  | zero => intro i h; simpa [skip_while_f] using h
  | succ n ih =>
    intro i h
    simp only [skip_while_f]
    split
    · next hcond => exact ih (i + 1) (by omega)
    · exact h

theorem skip_while_le (s : List Char) (e : Int) (p : Char → Bool) (i : Int) (h : i ≤ e) :
    skip_while s e p i ≤ e :=
  skip_while_f_le s e p _ i h

theorem skip_while_step (s : List Char) (e : Int) (p : Char → Bool) (i : Int)
    (hi : i < e) (hp : p (byteAt s i) = true) : i + 1 ≤ skip_while s e p i := by
  unfold skip_while
  have hk : (e - i).toNat = ((e - i).toNat - 1) + 1 := by omega
  rw [hk]
  simp only [skip_while_f]
  rw [if_pos ⟨hi, hp⟩]
  exact skip_while_f_ge s e p _ (i + 1)

theorem skip_while_reverse_f_le (s : List Char) (b : Int) (p : Char → Bool) (fuel : Nat) :
    ∀ i : Int, skip_while_reverse_f s b p fuel i ≤ i := by
  induction fuel with
  | zero => intro i; simp [skip_while_reverse_f]
  | succ n ih =>
    intro i
    simp only [skip_while_reverse_f]
    split
    · exact le_trans (ih (i - 1)) (by omega)
    · exact le_refl i

theorem skip_while_reverse_le (s : List Char) (b : Int) (p : Char → Bool) (i : Int) :
    skip_while_reverse s b p i ≤ i :=
  skip_while_reverse_f_le s b p _ i

theorem skip_while_reverse_f_ge (s : List Char) (b : Int) (p : Char → Bool) (fuel : Nat) :
    ∀ i : Int, b ≤ i → b ≤ skip_while_reverse_f s b p fuel i := by
  induction fuel with
  | zero => intro i h; simpa [skip_while_reverse_f] using h
  | succ n ih =>
    intro i h
    simp only [skip_while_reverse_f]
    split
    · next hcond => exact ih (i - 1) (by omega)
    · exact h

theorem skip_while_reverse_ge (s : List Char) (b : Int) (p : Char → Bool) (i : Int) (h : b ≤ i) :
    b ≤ skip_while_reverse s b p i :=
  skip_while_reverse_f_ge s b p _ i h

theorem skip_while_reverse_f_stop (s : List Char) (b : Int) (p : Char → Bool) (fuel : Nat) :
    ∀ i : Int, (i - b).toNat ≤ fuel → b < skip_while_reverse_f s b p fuel i →
      p (byteAt s (skip_while_reverse_f s b p fuel i)) = false := by
  induction fuel with
  | zero =>
    intro i hf hlt
    simp only [skip_while_reverse_f] at hlt ⊢
    omega
  | succ n ih =>
    intro i hf hlt
    simp only [skip_while_reverse_f] at hlt ⊢
    by_cases hc : b < i ∧ p (byteAt s i) = true
    · rw [if_pos hc] at hlt ⊢
      exact ih (i - 1) (by omega) hlt
    · rw [if_neg hc] at hlt ⊢
      rcases Bool.eq_false_or_eq_true (p (byteAt s i)) with h | h
      · exact absurd ⟨hlt, h⟩ hc
      · exact h

theorem skip_while_reverse_stop (s : List Char) (b : Int) (p : Char → Bool) (i : Int)
    (h : b < skip_while_reverse s b p i) :
    p (byteAt s (skip_while_reverse s b p i)) = false :=
  skip_while_reverse_f_stop s b p _ i (le_refl _) h

/-- Direction preservation for `select_word`. -/
theorem select_word_dir (s : List Char) (isW : Char → Bool) (cursor : Int) (fl : ObjectFlags)
    (hlen : cursor < (s.length : Int)) (sel' : Selection)
    (hsel : select_word s isW cursor fl = some sel') : dirOk fl sel' := by
  obtain ⟨fB, fE, fI⟩ := fl
  simp only [select_word] at hsel
  by_cases hw : isW (byteAt s cursor) = true
  · rw [if_neg (by simp [hw])] at hsel
    rw [Option.some.injEq] at hsel
    have h1 : skip_while_reverse s 0 isW cursor ≤ cursor := skip_while_reverse_le s 0 isW cursor
    have h2 : cursor + 1 ≤ skip_while s (s.length : Int) isW cursor :=
      skip_while_step s _ isW cursor hlen hw
    have h3 := skip_while_ge s (s.length : Int) is_horizontal_blank (skip_while s (s.length : Int) isW cursor)
    have hfi : (if isW (byteAt s (skip_while_reverse s 0 isW cursor)) = false then
          skip_while_reverse s 0 isW cursor + 1 else skip_while_reverse s 0 isW cursor) ≤ cursor := by
      split
      · next hstop =>
        rcases lt_or_eq_of_le h1 with hx | hx
        · omega
        · rw [hx] at hstop
          rw [hstop] at hw
          simp at hw
      · exact h1
    constructor
    · intro hE
      have hE' : fE = true := hE
      subst hE'
      simp only [reduceIte] at hsel
      rw [← hsel]
      have hL : (if fB = true then
          (if isW (byteAt s (skip_while_reverse s 0 isW cursor)) = false then
            skip_while_reverse s 0 isW cursor + 1 else skip_while_reverse s 0 isW cursor)
          else cursor) ≤ cursor := by
        split
        · exact hfi
        · exact le_refl cursor
      have hR : cursor ≤ (if fI = false then
          skip_while s (s.length : Int) is_horizontal_blank (skip_while s (s.length : Int) isW cursor)
          else skip_while s (s.length : Int) isW cursor) - 1 := by
        split
        · omega
        · omega
      exact le_trans hL hR
    · intro hB hE
      have hB' : fB = true := hB
      have hE' : fE = false := hE
      subst hB'
      subst hE'
      simp only [reduceIte] at hsel
      rw [← hsel]
      exact hfi
  · rw [if_pos (by simpa using hw)] at hsel
    exact absurd hsel (by simp)

/-- Direction preservation for `select_whitespaces`. -/
theorem select_whitespaces_dir (s : List Char) (cursor : Int) (fl : ObjectFlags)
    (hlen : cursor < (s.length : Int)) (sel' : Selection)
    (hsel : select_whitespaces s cursor fl = some sel') : dirOk fl sel' := by
  obtain ⟨fB, fE, fI⟩ := fl
  simp only [select_whitespaces] at hsel
  by_cases hw : sel_ws_pred ⟨fB, fE, fI⟩ (byteAt s cursor) = true
  · rw [if_neg (by simp [hw])] at hsel
    rw [Option.some.injEq] at hsel
    simp only [hw, reduceIte] at hsel
    have h1 : skip_while_reverse s 0 (sel_ws_pred ⟨fB, fE, fI⟩) cursor ≤ cursor :=
      skip_while_reverse_le s 0 _ cursor
    have h2 : cursor + 1 ≤ skip_while s (s.length : Int) (sel_ws_pred ⟨fB, fE, fI⟩) cursor :=
      skip_while_step s _ _ cursor hlen hw
    have hfi : (if sel_ws_pred ⟨fB, fE, fI⟩ (byteAt s (skip_while_reverse s 0 (sel_ws_pred ⟨fB, fE, fI⟩) cursor)) = false then
          skip_while_reverse s 0 (sel_ws_pred ⟨fB, fE, fI⟩) cursor + 1
        else skip_while_reverse s 0 (sel_ws_pred ⟨fB, fE, fI⟩) cursor) ≤ cursor := by
      split
      · next hstop =>
        rcases lt_or_eq_of_le h1 with hx | hx
        · omega
        · rw [hx] at hstop
          rw [hstop] at hw
          simp at hw
      · exact h1
    constructor
    · intro hE
      have hE' : fE = true := hE
      subst hE'
      simp only [reduceIte] at hsel
      rw [← hsel]
      have hL : (if fB = true then
          (if sel_ws_pred ⟨fB, true, fI⟩ (byteAt s (skip_while_reverse s 0 (sel_ws_pred ⟨fB, true, fI⟩) cursor)) = false then
            skip_while_reverse s 0 (sel_ws_pred ⟨fB, true, fI⟩) cursor + 1
          else skip_while_reverse s 0 (sel_ws_pred ⟨fB, true, fI⟩) cursor)
          else cursor) ≤ cursor := by
        split
        · exact hfi
        · exact le_refl cursor
      have hR : cursor ≤ skip_while s (s.length : Int) (sel_ws_pred ⟨fB, true, fI⟩) cursor - 1 := by
        omega
      exact le_trans hL hR
    · intro hB hE
      have hB' : fB = true := hB
      have hE' : fE = false := hE
      subst hB'
      subst hE'
      simp only [reduceIte] at hsel
      rw [← hsel]
      exact hfi
  · rw [if_pos (by simpa using hw)] at hsel
    exact absurd hsel (by simp)

/-- Direction preservation for `select_number`. -/
theorem select_number_dir (s : List Char) (cursor : Int) (fl : ObjectFlags)
    (_h0 : 0 ≤ cursor) (hlen : cursor < (s.length : Int)) (sel' : Selection)
    (hsel : select_number s cursor fl = some sel') : dirOk fl sel' := by
  obtain ⟨fB, fE, fI⟩ := fl
  simp only [select_number] at hsel
  by_cases hg : sel_num_pred ⟨fB, fE, fI⟩ (byteAt s cursor) = false ∧ byteAt s cursor ≠ '-'
  · rw [if_pos hg] at hsel
    exact absurd hsel (by simp)
  · rw [if_neg hg] at hsel
    rw [Option.some.injEq] at hsel
    have h1 : skip_while_reverse s 0 (sel_num_pred ⟨fB, fE, fI⟩) cursor ≤ cursor :=
      skip_while_reverse_le s 0 _ cursor
    have hfi : (if sel_num_pred ⟨fB, fE, fI⟩ (byteAt s (skip_while_reverse s 0 (sel_num_pred ⟨fB, fE, fI⟩) cursor)) = false ∧
          byteAt s (skip_while_reverse s 0 (sel_num_pred ⟨fB, fE, fI⟩) cursor) ≠ '-' ∧
          skip_while_reverse s 0 (sel_num_pred ⟨fB, fE, fI⟩) cursor + 1 ≠ (s.length : Int) then
          skip_while_reverse s 0 (sel_num_pred ⟨fB, fE, fI⟩) cursor + 1
        else skip_while_reverse s 0 (sel_num_pred ⟨fB, fE, fI⟩) cursor) ≤ cursor := by
      split
      · next hstop =>
        rcases lt_or_eq_of_le h1 with hx | hx
        · omega
        · rw [hx] at hstop
          exact absurd ⟨hstop.1, hstop.2.1⟩ hg
      · exact h1
    have hR : cursor ≤
        (if skip_while s (s.length : Int) (sel_num_pred ⟨fB, fE, fI⟩)
              (if byteAt s cursor = '-' then cursor + 1 else cursor) ≠ 0 then
          skip_while s (s.length : Int) (sel_num_pred ⟨fB, fE, fI⟩)
            (if byteAt s cursor = '-' then cursor + 1 else cursor) - 1
        else skip_while s (s.length : Int) (sel_num_pred ⟨fB, fE, fI⟩)
            (if byteAt s cursor = '-' then cursor + 1 else cursor)) := by
      by_cases hm : byteAt s cursor = '-'
      · simp only [hm, reduceIte]
        have hge := skip_while_ge s (s.length : Int) (sel_num_pred ⟨fB, fE, fI⟩) (cursor + 1)
        split
        · omega
        · omega
      · rw [if_neg hm]
        have hnum : sel_num_pred ⟨fB, fE, fI⟩ (byteAt s cursor) = true := by
          rcases Bool.eq_false_or_eq_true (sel_num_pred ⟨fB, fE, fI⟩ (byteAt s cursor)) with hx | hx
          · exact hx
          · exact absurd ⟨hx, hm⟩ hg
        have hst := skip_while_step s (s.length : Int) _ cursor hlen hnum
        split
        · omega
        · omega
    constructor
    · intro hE
      have hE' : fE = true := hE
      subst hE'
      simp only [reduceIte] at hsel
      rw [← hsel]
      have hL : (if sel_num_pred ⟨fB, true, fI⟩ (byteAt s (skip_while_reverse s 0 (sel_num_pred ⟨fB, true, fI⟩) cursor)) = false ∧
            byteAt s (skip_while_reverse s 0 (sel_num_pred ⟨fB, true, fI⟩) cursor) ≠ '-' ∧
            skip_while_reverse s 0 (sel_num_pred ⟨fB, true, fI⟩) cursor + 1 ≠ (s.length : Int) then
            skip_while_reverse s 0 (sel_num_pred ⟨fB, true, fI⟩) cursor + 1
          else skip_while_reverse s 0 (sel_num_pred ⟨fB, true, fI⟩) cursor) ≤ cursor := hfi
      have hfull : (if fB = true then
          (if sel_num_pred ⟨fB, true, fI⟩ (byteAt s (skip_while_reverse s 0 (sel_num_pred ⟨fB, true, fI⟩) cursor)) = false ∧
            byteAt s (skip_while_reverse s 0 (sel_num_pred ⟨fB, true, fI⟩) cursor) ≠ '-' ∧
            skip_while_reverse s 0 (sel_num_pred ⟨fB, true, fI⟩) cursor + 1 ≠ (s.length : Int) then
            skip_while_reverse s 0 (sel_num_pred ⟨fB, true, fI⟩) cursor + 1
          else skip_while_reverse s 0 (sel_num_pred ⟨fB, true, fI⟩) cursor)
          else cursor) ≤ cursor := by
        split
        · exact hL
        · exact le_refl cursor
      exact le_trans hfull hR
    · intro hB hE
      have hB' : fB = true := hB
      have hE' : fE = false := hE
      subst hB'
      subst hE'
      simp only [reduceIte] at hsel
      rw [← hsel]
      exact hfi

theorem para_back_f_le_succ (s : List Char) (fuel : Nat) :
    ∀ first : Int, para_back_f s fuel first ≤ first + 1 := by
  induction fuel with
  | zero => intro first; simp [para_back_f]
  | succ n ih =>
    intro first
    simp only [para_back_f]
    split
    · omega
    · split
      · exact le_refl _
      · exact le_trans (ih (first - 1)) (by omega)

theorem para_back_f_le (s : List Char) (fuel : Nat) (first : Int)
    (h : is_eol (byteAt s first) = false) : para_back_f s fuel first ≤ first := by
  cases fuel with
  | zero => simp [para_back_f]
  | succ n =>
    simp only [para_back_f]
    split
    · exact le_refl _
    · split
      · next hcond => rw [h] at hcond; exact absurd hcond.2 (by simp)
      · exact le_trans (para_back_f_le_succ s n (first - 1)) (by omega)

theorem para_back_at_swr_le (s : List Char) (c0 : Int) (h0 : 0 ≤ c0) :
    para_back_f s (skip_while_reverse s 0 is_eol c0).toNat (skip_while_reverse s 0 is_eol c0)
      ≤ skip_while_reverse s 0 is_eol c0 := by
  have hge : 0 ≤ skip_while_reverse s 0 is_eol c0 := skip_while_reverse_ge s 0 is_eol c0 h0
  rcases lt_or_eq_of_le hge with hpos | hzero
  · have hstop := skip_while_reverse_stop s 0 is_eol c0 hpos
    exact para_back_f_le s _ _ hstop
  · rw [← hzero]
    simp [para_back_f]

theorem para_fwd_f_ge (s : List Char) (inner : Bool) (e : Int) (fuel : Nat) :
    ∀ l : Int, l ≤ para_fwd_f s inner e fuel l := by
  induction fuel with
  | zero => intro l; simp [para_fwd_f]
  | succ n ih =>
    intro l
    simp only [para_fwd_f]
    split
    · exact le_refl _
    · split
      · split
        · exact skip_while_ge s e is_eol l
        · exact le_refl _
      · exact le_trans (by omega) (ih (l + 1))

theorem para_fwd_f_step (s : List Char) (inner : Bool) (e : Int) (fuel : Nat) (l : Int)
    (hfuel : 1 ≤ fuel) (hl : l < e) (he : is_eol (byteAt s l) = false) :
    l + 1 ≤ para_fwd_f s inner e fuel l := by
  cases fuel with
  | zero => omega
  | succ n =>
    simp only [para_fwd_f]
    rw [if_neg (by omega)]
    rw [if_neg (by rw [he]; simp)]
    exact para_fwd_f_ge s inner e n (l + 1)

/-- The forward half of `select_paragraph` never lands before the position
it starts from.  `x` is the position reached by the backward half. -/
theorem para_last_ge (s : List Char) (fI : Bool) (x : Int) (hx : x < (s.length : Int)) :
    x ≤ para_fwd_f s fI (s.length : Int)
      ((s.length : Int) - (if x ≠ (s.length : Int) ∧ is_eol (byteAt s x) = true then x + 1 else x)).toNat
      (if x ≠ (s.length : Int) ∧ is_eol (byteAt s x) = true then x + 1 else x) - 1 := by
  by_cases hc : x ≠ (s.length : Int) ∧ is_eol (byteAt s x) = true
  · rw [if_pos hc]
    have h := para_fwd_f_ge s fI (s.length : Int) ((s.length : Int) - (x + 1)).toNat (x + 1)
    omega
  · rw [if_neg hc]
    have hne : is_eol (byteAt s x) = false := by
      by_cases hb : is_eol (byteAt s x) = true
      · exact absurd ⟨by omega, hb⟩ hc
      · simpa using hb
    have h := para_fwd_f_step s fI (s.length : Int) ((s.length : Int) - x).toNat x (by omega) hx hne
    omega

/-- Direction preservation for `select_paragraph`. -/
theorem select_paragraph_dir (s : List Char) (cursor : Int) (fl : ObjectFlags)
    (h0 : 0 ≤ cursor) (hlen : cursor < (s.length : Int)) (sel' : Selection)
    (hsel : select_paragraph s cursor fl = some sel') : dirOk fl sel' := by
  obtain ⟨fB, fE, fI⟩ := fl
  simp only [select_paragraph] at hsel
  rw [Option.some.injEq] at hsel
  constructor
  · intro hE
    have hE' : fE = true := hE
    subst hE'
    simp only [show ((true : Bool) = false) = False from by simp,
      show ((true : Bool) = true) = True from by simp,
      false_and, true_and, if_false, if_true] at hsel
    set c0 := if cursor ≠ 0 ∧ cursor + 1 ≠ (s.length : Int) ∧ byteAt s (cursor - 1) = '\n' ∧ byteAt s cursor = '\n'
      then cursor + 1 else cursor with hc0def
    have hc0a : 0 ≤ c0 := by
      rw [hc0def]
      split <;> omega
    have hc0b : c0 < (s.length : Int) := by
      rw [hc0def]
      split
      · next hcc => omega
      · omega
    rw [← hsel]
    by_cases hfp : fB = true ∧ c0 ≠ 0
    · rw [if_pos hfp]
      have hfle : skip_while_reverse s 0 is_eol c0 ≤ c0 := skip_while_reverse_le s 0 is_eol c0
      exact le_trans (para_back_at_swr_le s c0 hc0a)
        (para_last_ge s fI (skip_while_reverse s 0 is_eol c0) (by omega))
    · rw [if_neg hfp]
      exact para_last_ge s fI c0 hc0b
  · intro hB hE
    have hB' : fB = true := hB
    have hE' : fE = false := hE
    subst hB'
    subst hE'
    simp only [show ((false : Bool) = false) = True from by simp,
      show ((false : Bool) = true) = False from by simp,
      show ((true : Bool) = true) = True from by simp,
      false_and, true_and, if_false, if_true] at hsel
    set c0 := if 1 < cursor ∧ byteAt s (cursor - 1) = '\n' ∧ byteAt s (cursor - 2) = '\n'
      then cursor - 1 else cursor with hc0def
    have hc0a : 0 ≤ c0 := by
      rw [hc0def]
      split <;> omega
    rw [← hsel]
    by_cases hfp : c0 ≠ 0
    · rw [if_pos hfp]
      have hfle : skip_while_reverse s 0 is_eol c0 ≤ c0 := skip_while_reverse_le s 0 is_eol c0
      exact le_trans (para_back_at_swr_le s c0 hc0a) hfle
    · rw [if_neg hfp]

theorem coordLe_mk (l1 c1 l2 c2 : Int) (h : l1 < l2 ∨ (l1 = l2 ∧ c1 ≤ c2)) :
    coordLe ⟨l1, c1⟩ ⟨l2, c2⟩ := h

theorem lineAt_mem (b : LBuf) (i : Int) (h0 : 0 ≤ i) (hl : i < (b.lines.length : Int)) :
    lineAt b i ∈ b.lines := by
  unfold lineAt
  rw [if_pos h0]
  have hn : i.toNat < b.lines.length := by omega
  simp only [List.getD_eq_getElem?_getD, List.getElem?_eq_getElem hn, Option.getD_some]
  exact List.getElem_mem hn

theorem lineAt_len_pos (b : LBuf) (hwf : ∀ l ∈ b.lines, l ≠ []) (i : Int)
    (h0 : 0 ≤ i) (hl : i < (b.lines.length : Int)) : 1 ≤ ((lineAt b i).length : Int) := by
  have hm := lineAt_mem b i h0 hl
  have hne := hwf _ hm
  have hp := List.length_pos.mpr hne
  omega

theorem indent_up_f_le (b : LBuf) (ts ind : Int) (fuel : Nat) :
    ∀ bl : Int, indent_up_f b ts ind fuel bl ≤ bl := by
  induction fuel with
  | zero => intro bl; simp [indent_up_f]
  | succ n ih =>
    intro bl
    simp only [indent_up_f]
    split
    · exact le_refl _
    · split
      · exact le_trans (ih (bl - 1)) (by omega)
      · exact le_refl _

theorem indent_up_f_ge (b : LBuf) (ts ind : Int) (fuel : Nat) :
    ∀ bl : Int, -1 ≤ bl → -1 ≤ indent_up_f b ts ind fuel bl := by
  induction fuel with
  | zero => intro bl h; simpa [indent_up_f] using h
  | succ n ih =>
    intro bl h
    simp only [indent_up_f]
    split
    · exact h
    · split
      · next hlt hcond => exact ih (bl - 1) (by omega)
      · exact h

theorem indent_down_f_ge (b : LBuf) (ts ind e : Int) (fuel : Nat) :
    ∀ el : Int, el ≤ indent_down_f b ts ind e fuel el := by
  induction fuel with
  | zero => intro el; simp [indent_down_f]
  | succ n ih =>
    intro el
    simp only [indent_down_f]
    split
    · exact le_refl _
    · split
      · exact le_trans (by omega) (ih (el + 1))
      · exact le_refl _

theorem indent_down_f_le (b : LBuf) (ts ind e : Int) (fuel : Nat) :
    ∀ el : Int, el ≤ e → indent_down_f b ts ind e fuel el ≤ e := by
  induction fuel with
  | zero => intro el h; simpa [indent_down_f] using h
  | succ n ih =>
    intro el h
    simp only [indent_down_f]
    split
    · exact h
    · split
      · next hlt hcond => exact ih (el + 1) (by omega)
      · exact h

theorem trim_top_f_ge (b : LBuf) (endl : Int) (fuel : Nat) :
    ∀ bl : Int, bl ≤ trim_top_f b endl fuel bl := by
  induction fuel with
  | zero => intro bl; simp [trim_top_f]
  | succ n ih =>
    intro bl
    simp only [trim_top_f]
    split
    · exact le_trans (by omega) (ih (bl + 1))
    · exact le_refl _

theorem trim_top_f_le (b : LBuf) (endl : Int) (fuel : Nat) :
    ∀ bl : Int, bl ≤ endl → trim_top_f b endl fuel bl ≤ endl := by
  induction fuel with
  | zero => intro bl h; simpa [trim_top_f] using h
  | succ n ih =>
    intro bl h
    simp only [trim_top_f]
    split
    · next hcond => exact ih (bl + 1) (by omega)
    · exact h

theorem trim_bot_f_le (b : LBuf) (bl : Int) (fuel : Nat) :
    ∀ el : Int, trim_bot_f b bl fuel el ≤ el := by
  induction fuel with
  | zero => intro el; simp [trim_bot_f]
  | succ n ih =>
    intro el
    simp only [trim_bot_f]
    split
    · exact le_trans (ih (el - 1)) (by omega)
    · exact le_refl _

theorem trim_bot_f_ge (b : LBuf) (bl : Int) (fuel : Nat) :
    ∀ el : Int, bl ≤ el → bl ≤ trim_bot_f b bl fuel el := by
  induction fuel with
  | zero => intro el h; simpa [trim_bot_f] using h
  | succ n ih =>
    intro el h
    simp only [trim_bot_f]
    split
    · next hcond => exact ih (el - 1) (by omega)
    · exact h

/-- Direction preservation for `select_indent`. -/
theorem select_indent_dir (b : LBuf) (tabstop : Int) (pos : BufferCoord) (fl : ObjectFlags)
    (hwf : ∀ l ∈ b.lines, l ≠ [])
    (hline0 : 0 ≤ pos.line) (hlinel : pos.line < (b.lines.length : Int))
    (hcol0 : 0 ≤ pos.column) (hcolle : pos.column ≤ ((lineAt b pos.line).length : Int) - 1)
    (sel' : CoordSelection)
    (hsel : select_indent b tabstop pos fl = some sel') : cdirOk fl sel' := by
  obtain ⟨fB, fE, fI⟩ := fl
  simp only [select_indent] at hsel
  rw [Option.some.injEq] at hsel
  constructor
  · intro hE
    have hE' : fE = true := hE
    subst hE'
    simp only [show ((true : Bool) = true) = True from by simp, if_true, true_and] at hsel
    set ind := get_indent (lineAt b pos.line) tabstop with hinddef
    set bu := (if fB = true then indent_up_f b tabstop ind (pos.line - 1 + 1).toNat (pos.line - 1)
      else pos.line - 1) with hbudef
    set ed := indent_down_f b tabstop ind (b.lines.length : Int)
      ((b.lines.length : Int) - (pos.line + 1)).toNat (pos.line + 1) with heddef
    have hbu1 : bu ≤ pos.line - 1 := by
      rw [hbudef]
      split
      · exact indent_up_f_le b tabstop ind _ (pos.line - 1)
      · exact le_refl _
    have hbu2 : -1 ≤ bu := by
      rw [hbudef]
      split
      · exact indent_up_f_ge b tabstop ind _ (pos.line - 1) (by omega)
      · omega
    have hed1 : pos.line + 1 ≤ ed := indent_down_f_ge b tabstop ind _ _ (pos.line + 1)
    have hed2 : ed ≤ (b.lines.length : Int) := indent_down_f_le b tabstop ind _ _ (pos.line + 1) (by omega)
    set bl1 := trim_top_f b (ed - 1) (ed - 1 - (bu + 1)).toNat (bu + 1) with hbl1def
    set el1 := trim_bot_f b bl1 (ed - 1 - bl1).toNat (ed - 1) with hel1def
    have hbl1a : bu + 1 ≤ bl1 := trim_top_f_ge b (ed - 1) _ (bu + 1)
    have hbl1b : bl1 ≤ ed - 1 := trim_top_f_le b (ed - 1) _ (bu + 1) (by omega)
    have hel1a : bl1 ≤ el1 := trim_bot_f_ge b bl1 _ (ed - 1) (by omega)
    have hel1b : el1 ≤ ed - 1 := trim_bot_f_le b bl1 _ (ed - 1)
    rw [← hsel]
    by_cases hI : fI = true
    · rw [if_pos hI]
      by_cases hBv : fB = true
      · rw [if_pos hBv]
        have hlen := lineAt_len_pos b hwf el1 (by omega) (by omega)
        exact coordLe_mk bl1 0 el1 (((lineAt b el1).length : Int) - 1) (by
          rcases lt_or_eq_of_le hel1a with h | h
          · exact Or.inl h
          · exact Or.inr ⟨h, by omega⟩)
      · rw [if_neg hBv]
        have hbu_eq : bu = pos.line - 1 := by rw [hbudef, if_neg hBv]
        have hge : pos.line ≤ el1 := by omega
        have hlen := lineAt_len_pos b hwf el1 (by omega) (by omega)
        exact coordLe_mk pos.line pos.column el1 (((lineAt b el1).length : Int) - 1) (by
          rcases lt_or_eq_of_le hge with h | h
          · exact Or.inl h
          · exact Or.inr ⟨h, by rw [← h]; exact hcolle⟩)
    · rw [if_neg hI]
      by_cases hBv : fB = true
      · rw [if_pos hBv]
        have hlen := lineAt_len_pos b hwf (ed - 1) (by omega) (by omega)
        exact coordLe_mk (bu + 1) 0 (ed - 1) (((lineAt b (ed - 1)).length : Int) - 1) (by
          rcases lt_or_eq_of_le (show bu + 1 ≤ ed - 1 by omega) with h | h
          · exact Or.inl h
          · exact Or.inr ⟨h, by omega⟩)
      · rw [if_neg hBv]
        have hbu_eq : bu = pos.line - 1 := by rw [hbudef, if_neg hBv]
        have hlen := lineAt_len_pos b hwf (ed - 1) (by omega) (by omega)
        exact coordLe_mk pos.line pos.column (ed - 1) (((lineAt b (ed - 1)).length : Int) - 1) (by
          rcases lt_or_eq_of_le (show pos.line ≤ ed - 1 by omega) with h | h
          · exact Or.inl h
          · exact Or.inr ⟨h, by rw [← h]; exact hcolle⟩)
  · intro hB hE
    have hB' : fB = true := hB
    have hE' : fE = false := hE
    subst hB'
    subst hE'
    simp only [show ((true : Bool) = true) = True from by simp,
      show ((false : Bool) = true) = False from by simp, if_true, if_false, true_and] at hsel
    set ind := get_indent (lineAt b pos.line) tabstop with hinddef
    set bu := indent_up_f b tabstop ind (pos.line - 1 + 1).toNat (pos.line - 1) with hbudef
    have hbu1 : bu ≤ pos.line - 1 := indent_up_f_le b tabstop ind _ (pos.line - 1)
    set bl1 := trim_top_f b (pos.line + 1 - 1) (pos.line + 1 - 1 - (bu + 1)).toNat (bu + 1) with hbl1def
    have hbl1a : bu + 1 ≤ bl1 := trim_top_f_ge b (pos.line + 1 - 1) _ (bu + 1)
    have hbl1b : bl1 ≤ pos.line + 1 - 1 := trim_top_f_le b (pos.line + 1 - 1) _ (bu + 1) (by omega)
    rw [← hsel]
    by_cases hI : fI = true
    · rw [if_pos hI]
      exact coordLe_mk bl1 0 pos.line pos.column (by
        rcases lt_or_eq_of_le (show bl1 ≤ pos.line by omega) with h | h
        · exact Or.inl h
        · exact Or.inr ⟨h, hcol0⟩)
    · rw [if_neg hI]
      exact coordLe_mk (bu + 1) 0 pos.line pos.column (by
        rcases lt_or_eq_of_le (show bu + 1 ≤ pos.line by omega) with h | h
        · exact Or.inl h
        · exact Or.inr ⟨h, hcol0⟩)

/-- C3 (amended): for every valid input selection on which the selector
succeeds, a selector invoked with flags containing ToEnd returns a
selection with anchor ≤ cursor, and one invoked with ToBegin but not
ToEnd returns cursor ≤ anchor — for `select_word`, `select_number`,
`select_whitespaces`, `select_paragraph` and `select_indent`.
(`select_sentence` and `select_argument`, also listed by the original
claim, violate the property; see the counterexample.) -/
theorem selector_direction (s : List Char) (cursor : Int) (fl : ObjectFlags)
    (hlen : cursor < (s.length : Int)) (h0 : 0 ≤ cursor) :
    (∀ (isW : Char → Bool) (sel' : Selection), select_word s isW cursor fl = some sel' → dirOk fl sel')
  ∧ (∀ sel' : Selection, select_number s cursor fl = some sel' → dirOk fl sel')
  ∧ (∀ sel' : Selection, select_whitespaces s cursor fl = some sel' → dirOk fl sel')
  ∧ (∀ sel' : Selection, select_paragraph s cursor fl = some sel' → dirOk fl sel')
  ∧ (∀ (b : LBuf) (tabstop : Int) (pos : BufferCoord),
      (∀ l ∈ b.lines, l ≠ []) → 0 ≤ pos.line → pos.line < (b.lines.length : Int) →
      0 ≤ pos.column → pos.column ≤ ((lineAt b pos.line).length : Int) - 1 →
      ∀ sel' : CoordSelection, select_indent b tabstop pos fl = some sel' → cdirOk fl sel') := by
  refine ⟨?_, ?_, ?_, ?_, ?_⟩
  · exact fun isW sel' h => select_word_dir s isW cursor fl hlen sel' h
  · exact fun sel' h => select_number_dir s cursor fl h0 hlen sel' h
  · exact fun sel' h => select_whitespaces_dir s cursor fl hlen sel' h
  · exact fun sel' h => select_paragraph_dir s cursor fl h0 hlen sel' h
  · exact fun b tabstop pos hwf hl0 hll hc0 hcl sel' h =>
      select_indent_dir b tabstop pos fl hwf hl0 hll hc0 hcl sel' h

/-- C3 counterexample: `select_sentence` on "a\n\n\n" at offset 2 (a valid
coordinate, line 1 column 0) with ToBegin|ToEnd returns anchor 3 greater
than cursor 2, and `select_argument` on "x((a\n" at offset 2 with ToBegin
returns cursor 2 greater than anchor 1; both break the claimed direction
property. -/
theorem selector_direction_cx :
    (select_sentence "a\n\n\n".toList 2 ⟨true, true, false⟩ = some ⟨3, 2⟩
      ∧ ¬ dirOk ⟨true, true, false⟩ ⟨3, 2⟩)
  ∧ (select_argument "x((a\n".toList 2 0 ⟨true, false, false⟩ = some ⟨1, 2⟩
      ∧ ¬ dirOk ⟨true, false, false⟩ ⟨1, 2⟩) := by
  constructor
  · refine ⟨by decide, fun hd => ?_⟩
    have h := hd.1 rfl
    simp only [Selection.anchor, Selection.cursor] at h
    omega
  · refine ⟨by decide, fun hd => ?_⟩
    have h := hd.2 rfl rfl
    simp only [Selection.anchor, Selection.cursor] at h
    omega

/-- Witness for C3: `select_word` on "ab \n" at offset 0 with
ToBegin|ToEnd selects the word with its trailing blank, offsets 0 to 2,
and the direction requirement holds on it. -/
theorem selector_direction_witness :
    select_word "ab \n".toList (fun ch => ch.isAlpha) 0 ⟨true, true, false⟩ = some ⟨0, 2⟩
      ∧ dirOk ⟨true, true, false⟩ ⟨0, 2⟩ := by
  refine ⟨by decide, ?_⟩
  exact (selector_direction "ab \n".toList 0 ⟨true, true, false⟩ (by decide) (by decide)).1
    (fun ch => ch.isAlpha) ⟨0, 2⟩ (by decide)

/-- C4: `select_argument` on the two-byte buffer containing "," and a
newline, with the cursor at the valid coordinate (0,0) (offset 0), level
0 and flags ToEnd|Inner, returns a selection whose cursor offset is -1:
the Inner branch's `--end` moves the iterator before the buffer begin,
which is not a valid buffer coordinate.  This contradicts the validity
invariant the spec states for all selectors. -/
theorem select_argument_invalid_coord :
    select_argument ",\n".toList 0 0 ⟨false, true, true⟩ = some ⟨0, -1⟩
      ∧ ¬ (0 ≤ (-1 : Int)) := by
  decide

theorem coordLe_of_not (a b : BufferCoord) (h : ¬ coordLe a b) : coordLe b a := by
  simp only [coordLe] at h ⊢
  omega

/-- C5: on a selection whose `min` is at column 0 and whose `max` is at
the last column of its line, `select_lines` followed by
`trim_partial_lines` is the identity. -/
theorem select_lines_trim_identity (b : LBuf) (sel : CoordSelection)
    (hmin : (CoordSelection.min sel).column = 0)
    (hmax : (CoordSelection.max sel).column = ((lineAt b (CoordSelection.max sel).line).length : Int) - 1) :
    (select_lines b sel).bind (trim_partial_lines b) = some sel := by
  obtain ⟨⟨al, ac⟩, ⟨cl, cc⟩⟩ := sel
  simp only [CoordSelection.min, CoordSelection.max] at hmin hmax
  by_cases hd : coordLe ⟨al, ac⟩ ⟨cl, cc⟩
  · rw [if_pos hd] at hmin hmax
    simp only at hmin hmax
    subst hmin
    subst hmax
    simp only [select_lines, if_pos hd, Option.some_bind]
    simp [trim_partial_lines, hd]
  · rw [if_neg hd] at hmin hmax
    simp only at hmin hmax
    subst hmin
    subst hmax
    simp only [select_lines, if_neg hd, Option.some_bind]
    have h2 := coordLe_of_not _ _ hd
    simp [trim_partial_lines, hd, h2]

/-- Witness for C5: the whole-line selection (0,0)-(0,2) of the one-line
buffer "ab\n" is preserved by `select_lines` then `trim_partial_lines`. -/
theorem select_lines_trim_identity_witness :
    (select_lines ⟨["ab\n".toList]⟩ ⟨⟨0, 0⟩, ⟨0, 2⟩⟩).bind (trim_partial_lines ⟨["ab\n".toList]⟩) =
      some ⟨⟨0, 0⟩, ⟨0, 2⟩⟩ :=
  select_lines_trim_identity ⟨["ab\n".toList]⟩ ⟨⟨0, 0⟩, ⟨0, 2⟩⟩ (by decide) (by decide)

theorem byteAt_eq_getElem (s : List Char) (i : Int) (h0 : 0 ≤ i) (hl : i.toNat < s.length) :
    byteAt s i = s[i.toNat] := by
  unfold byteAt
  rw [if_pos h0]
  rw [List.getD_eq_getElem?_getD, List.getElem?_eq_getElem hl, Option.getD_some]

/-- The scan loop of `select_matching` computes exactly the first
matching-pair character of the remainder of the cursor's line. -/
theorem match_scan_f_eq_firstPair (s : List Char) (fuel : Nat) :
    ∀ i : Int, 0 ≤ i → fuel = ((s.length : Int) - i).toNat →
      match_scan_f s fuel i = firstPairOffset s i := by
  induction fuel with
  | zero =>
    intro i h0 hf
    have hge : s.length ≤ i.toNat := by omega
    simp [match_scan_f, firstPairOffset, lineRemainder, List.drop_eq_nil_of_le hge]
  | succ n ih =>
    intro i h0 hf
    have hlt : i.toNat < s.length := by omega
    have hb := byteAt_eq_getElem s i h0 hlt
    have hdrop : s.drop i.toNat = s[i.toNat] :: s.drop (i.toNat + 1) := List.drop_eq_getElem_cons hlt
    simp only [match_scan_f, firstPairOffset, lineRemainder, hdrop, List.takeWhile_cons]
    by_cases heol : is_eol (byteAt s i) = true
    · rw [if_pos heol]
      rw [hb] at heol
      simp [heol]
    · rw [if_neg heol]
      rw [hb] at heol ⊢
      have hne : (!is_eol s[i.toNat]) = true := by simp [heol]
      rw [if_pos hne]
      rw [List.findIdx?_cons]
      by_cases hmem : s[i.toNat] ∈ matching_pairs
      · rw [if_pos hmem]
        have hd : decide (s[i.toNat] ∈ matching_pairs) = true := by simp [hmem]
        rw [if_pos hd]
        simp
      · rw [if_neg hmem]
        have hd : ¬ decide (s[i.toNat] ∈ matching_pairs) = true := by simp [hmem]
        rw [if_neg hd]
        rw [List.findIdx?_succ]
        have hih := ih (i + 1) (by omega) (by omega)
        rw [hih]
        simp only [firstPairOffset, lineRemainder]
        have hnn : (i + 1).toNat = i.toNat + 1 := by omega
        rw [hnn]
        cases hfi : ((s.drop (i.toNat + 1)).takeWhile (fun ch => !(is_eol ch))).findIdx?
            (fun ch => decide (ch ∈ matching_pairs)) with
        | none => simp
        | some k =>
          show some (i + 1 + (k : Int)) = some (i + ((k + 1 : Nat) : Int))
          rw [Option.some.injEq]
          push_cast
          omega

/-- C6: the first loop of `select_matching` scans only within the
cursor's line and finds the first of the eight pair characters on it; the
selector fails when none occurs there; when the first such character is
an opener (even index in the table) the result is the forward nesting
scan from it, and when it is a closer the backward nesting scan — each
yielding the span up to the balancing character, or absent when the scan
reaches the end (resp. the beginning) of the buffer before the counter
balances. -/
theorem select_matching_spec (s : List Char) (cursor : Int) (h0 : 0 ≤ cursor) :
    (match_scan s cursor = firstPairOffset s cursor)
  ∧ ((∀ ch ∈ lineRemainder s cursor, ch ∉ matching_pairs) → select_matching s cursor = none)
  ∧ (∀ p : Int, firstPairOffset s cursor = some p →
      (matching_pairs.indexOf (byteAt s p) % 2 = 0 →
        select_matching s cursor =
          (match_fwd_f s (matching_pairs.getD (matching_pairs.indexOf (byteAt s p)) (Char.ofNat 0))
            (matching_pairs.getD (matching_pairs.indexOf (byteAt s p) + 1) (Char.ofNat 0))
            ((s.length : Int) - p).toNat p 0).map (fun q => ⟨p, q⟩))
      ∧ (matching_pairs.indexOf (byteAt s p) % 2 ≠ 0 →
        select_matching s cursor =
          (match_bwd_f s (matching_pairs.getD (matching_pairs.indexOf (byteAt s p) - 1) (Char.ofNat 0))
            (matching_pairs.getD (matching_pairs.indexOf (byteAt s p)) (Char.ofNat 0))
            (p.toNat + 1) p 0).map (fun q => ⟨p, q⟩))) := by
  have hscan : match_scan s cursor = firstPairOffset s cursor :=
    match_scan_f_eq_firstPair s _ cursor h0 rfl
  refine ⟨hscan, ?_, ?_⟩
  · intro hnone
    have hfp : firstPairOffset s cursor = none := by
      simp only [firstPairOffset]
      rw [List.findIdx?_eq_none_iff.mpr (fun x hx => by simp [hnone x hx])]
      rfl
    simp only [select_matching, hscan, hfp]
  · intro p hp
    have hms : match_scan s cursor = some p := by rw [hscan, hp]
    constructor
    · intro heven
      simp only [select_matching, hms]
      rw [if_pos heven]
    · intro hodd
      simp only [select_matching, hms]
      rw [if_neg hodd]

/-- Witness for C6: on "(ab)\n" at offset 0 the first pair character is
the opener at 0 and the matched span is (0, 3). -/
theorem select_matching_spec_witness :
    select_matching "(ab)\n".toList 0 = some ⟨0, 3⟩ := by
  have h := ((select_matching_spec "(ab)\n".toList 0 (by decide)).2.2 0 (by decide)).1 (by decide)
  rw [h]
  decide

/-- C7: `find_next_match<Forward>` starts its search just past the
selection's max and `find_next_match<Backward>` at the selection's min;
when the first search finds nothing, the wrapped flag is set and the
search is repeated from the other end of the buffer; a match found after
wrapping lies at or before the forward search origin (resp. at or after
the backward origin), provided the engine's first search is complete —
it cannot fail while the full search finds a match entirely beyond
(resp. before) the origin; and when no match exists at all the operation
throws the recoverable error "'<pattern>': no matches found". -/
theorem find_next_match_spec (buf : List Char) (sel : Selection) (r : RegexM) :
    (∀ mb me, utf8_next buf (Selection.max sel) ≠ (buf.length : Int) →
      r.searchF (utf8_next buf (Selection.max sel)) (buf.length : Int) = some (mb, me) →
      mb ≠ (buf.length : Int) →
      find_next_match_fwd buf sel r = .ok (⟨mb, if mb = me then me else utf8_prev mb me⟩, false))
  ∧ (r.searchF (utf8_next buf (Selection.max sel)) (buf.length : Int) = none →
      ∀ mb me, r.searchF 0 (buf.length : Int) = some (mb, me) → mb ≠ (buf.length : Int) →
      find_next_match_fwd buf sel r = .ok (⟨mb, if mb = me then me else utf8_prev mb me⟩, true)
      ∧ ((utf8_next buf (Selection.max sel) ≤ mb →
            r.searchF (utf8_next buf (Selection.max sel)) (buf.length : Int) ≠ none) →
          mb ≤ Selection.max sel))
  ∧ (r.searchF (utf8_next buf (Selection.max sel)) (buf.length : Int) = none →
      r.searchF 0 (buf.length : Int) = none →
      find_next_match_fwd buf sel r = .error (noMatchesMsg r))
  ∧ (∀ mb me, Selection.min sel ≠ 0 →
      r.searchB 0 (Selection.min sel) = some (mb, me) → mb ≠ (buf.length : Int) →
      find_next_match_bwd buf sel r = .ok (⟨if mb = me then me else utf8_prev mb me, mb⟩, false))
  ∧ (r.searchB 0 (Selection.min sel) = none →
      ∀ mb me, r.searchB 0 (buf.length : Int) = some (mb, me) → mb ≠ (buf.length : Int) →
      find_next_match_bwd buf sel r = .ok (⟨if mb = me then me else utf8_prev mb me, mb⟩, true)
      ∧ ((me ≤ Selection.min sel → r.searchB 0 (Selection.min sel) ≠ none) →
          Selection.min sel < me))
  ∧ (r.searchB 0 (Selection.min sel) = none →
      r.searchB 0 (buf.length : Int) = none →
      find_next_match_bwd buf sel r = .error (noMatchesMsg r)) := by
  refine ⟨?_, ?_, ?_, ?_, ?_, ?_⟩
  · intro mb me hpos hs hmb
    simp only [find_next_match_fwd, find_next, if_pos hpos, hs]
    rw [if_neg hmb]
  · intro hs1 mb me hs2 hmb
    constructor
    · simp only [find_next_match_fwd, find_next, hs1, hs2, ite_self]
      rw [if_neg hmb]
    · intro hcomp
      have hlt : mb < utf8_next buf (Selection.max sel) := by
        by_contra hge
        exact absurd hs1 (hcomp (by omega))
      have hub : utf8_next buf (Selection.max sel) ≤ Selection.max sel + 1 := by
        unfold utf8_next
        split <;> omega
      omega
  · intro hs1 hs2
    simp only [find_next_match_fwd, find_next, hs1, hs2, ite_self]
  · intro mb me hpos hs hmb
    simp only [find_next_match_bwd, find_prev, if_pos hpos, hs]
    rw [if_neg hmb]
  · intro hs1 mb me hs2 hmb
    constructor
    · simp only [find_next_match_bwd, find_prev, hs1, hs2, ite_self]
      rw [if_neg hmb]
    · intro hcomp
      by_contra hge
      exact absurd hs1 (hcomp (by omega))
  · intro hs1 hs2
    simp only [find_next_match_bwd, find_prev, hs1, hs2, ite_self]

/-- Witness for C7: a search function matching exactly the span (2, 3);
from the selection at offset 0 of "abab\n" the forward search starts at
offset 1, finds it without wrapping, and the resulting selection is the
single offset 2. -/
theorem find_next_match_spec_witness :
    find_next_match_fwd "abab\n".toList ⟨0, 0⟩
      ⟨"x", fun b e => if b ≤ 2 ∧ 3 ≤ e then some (2, 3) else none, fun _ _ => none⟩ =
      .ok (⟨2, 2⟩, false) := by
  have h := (find_next_match_spec "abab\n".toList ⟨0, 0⟩
      ⟨"x", fun b e => if b ≤ 2 ∧ 3 ≤ e then some (2, 3) else none, fun _ _ => none⟩).1
    2 3 (by decide) (by decide) (by decide)
  rw [h]
  simp [utf8_prev]

/-- C8: `select_all_matches` and `split_selections` throw the
recoverable error "invalid capture number" exactly when the requested
capture is negative or greater than the regex mark count; they throw
"nothing selected" exactly when the capture is valid but the computed
selection vector is empty; and in every other case they replace the
selection list with the computed vector without throwing. -/
theorem capture_errors_spec (buf : List Char) (sels : List Selection) (r : RegexL) (capture : Int) :
    ((select_all_matches_run buf sels r capture).1 = .error "invalid capture number" ↔
      (capture < 0 ∨ (r.markCount : Int) < capture))
  ∧ ((select_all_matches_run buf sels r capture).1 = .error "nothing selected" ↔
      (¬(capture < 0 ∨ (r.markCount : Int) < capture) ∧ select_all_matches_core buf sels r capture = []))
  ∧ (¬(capture < 0 ∨ (r.markCount : Int) < capture) → select_all_matches_core buf sels r capture ≠ [] →
      select_all_matches_run buf sels r capture = (.ok (), select_all_matches_core buf sels r capture))
  ∧ ((split_selections_run buf sels r capture).1 = .error "invalid capture number" ↔
      (capture < 0 ∨ (r.markCount : Int) < capture))
  ∧ ((split_selections_run buf sels r capture).1 = .error "nothing selected" ↔
      (¬(capture < 0 ∨ (r.markCount : Int) < capture) ∧ split_selections_core buf sels r capture = []))
  ∧ (¬(capture < 0 ∨ (r.markCount : Int) < capture) → split_selections_core buf sels r capture ≠ [] →
      split_selections_run buf sels r capture = (.ok (), split_selections_core buf sels r capture)) := by
  refine ⟨?_, ?_, ?_, ?_, ?_, ?_⟩
  · constructor
    · intro h
      by_contra hc
      simp only [select_all_matches_run, if_neg hc] at h
      by_cases hres : select_all_matches_core buf sels r capture = []
      · rw [if_pos hres] at h
        simp at h
      · rw [if_neg hres] at h
        exact absurd h (by simp)
    · intro hc
      simp [select_all_matches_run, hc]
  · constructor
    · intro h
      by_cases hc : capture < 0 ∨ (r.markCount : Int) < capture
      · simp only [select_all_matches_run, if_pos hc] at h
        simp at h
      · simp only [select_all_matches_run, if_neg hc] at h
        refine ⟨hc, ?_⟩
        by_contra hres
        rw [if_neg hres] at h
        exact absurd h (by simp)
    · intro ⟨hc, hres⟩
      simp [select_all_matches_run, hc, hres]
  · intro hc hres
    simp [select_all_matches_run, hc, hres]
  · constructor
    · intro h
      by_contra hc
      simp only [split_selections_run, if_neg hc] at h
      by_cases hres : split_selections_core buf sels r capture = []
      · rw [if_pos hres] at h
        simp at h
      · rw [if_neg hres] at h
        exact absurd h (by simp)
    · intro hc
      simp [split_selections_run, hc]
  · constructor
    · intro h
      by_cases hc : capture < 0 ∨ (r.markCount : Int) < capture
      · simp only [split_selections_run, if_pos hc] at h
        simp at h
      · simp only [split_selections_run, if_neg hc] at h
        refine ⟨hc, ?_⟩
        by_contra hres
        rw [if_neg hres] at h
        exact absurd h (by simp)
    · intro ⟨hc, hres⟩
      simp [split_selections_run, hc, hres]
  · intro hc hres
    simp [split_selections_run, hc, hres]

/-- Witness for C8: with mark count 0 and one match spanning (0, 1), a
valid capture 0 on the selection at offset 0 of "ab\n" replaces the list
with the single match selection. -/
theorem capture_errors_spec_witness :
    select_all_matches_run "ab\n".toList [⟨0, 0⟩] ⟨0, fun _ _ => [[(0, 1)]]⟩ 0 =
      (.ok (), [⟨0, 0⟩]) := by
  have h := (capture_errors_spec "ab\n".toList [⟨0, 0⟩] ⟨0, fun _ _ => [[(0, 1)]]⟩ 0).2.2.1
    (by decide) (by decide)
  rw [h]
  rfl

/-- C9: whenever `select_all_matches` or `split_selections` throws
(either error), the selection list is left unchanged — every throwing
path occurs before the assignment that replaces the list. -/
theorem capture_errors_atomic (buf : List Char) (sels : List Selection) (r : RegexL) (capture : Int) :
    (∀ msg : String, (select_all_matches_run buf sels r capture).1 = .error msg →
      (select_all_matches_run buf sels r capture).2 = sels)
  ∧ (∀ msg : String, (split_selections_run buf sels r capture).1 = .error msg →
      (split_selections_run buf sels r capture).2 = sels) := by
  constructor
  · intro msg h
    by_cases hc : capture < 0 ∨ (r.markCount : Int) < capture
    · simp [select_all_matches_run, hc]
    · simp only [select_all_matches_run, if_neg hc] at h ⊢
      by_cases hres : select_all_matches_core buf sels r capture = []
      · simp [if_pos hres]
      · rw [if_neg hres] at h
        exact absurd h (by simp)
  · intro msg h
    by_cases hc : capture < 0 ∨ (r.markCount : Int) < capture
    · simp [split_selections_run, hc]
    · simp only [split_selections_run, if_neg hc] at h ⊢
      by_cases hres : split_selections_core buf sels r capture = []
      · simp [if_pos hres]
      · rw [if_neg hres] at h
        exact absurd h (by simp)

/-- Witness for C9: an out-of-range capture (5 with mark count 0) throws
and leaves the single-selection list unchanged. -/
theorem capture_errors_atomic_witness :
    (select_all_matches_run "ab\n".toList [⟨0, 0⟩] ⟨0, fun _ _ => []⟩ 5).2 = [⟨0, 0⟩] :=
  (capture_errors_atomic "ab\n".toList [⟨0, 0⟩] ⟨0, fun _ _ => []⟩ 5).1
    "invalid capture number" (by rfl)

end Kakoune
